import Mathlib

/-!
# Verification of the vgmtui playlist / pending-playback state machine

Shallow embedding of the playlist component
(`internal/ui/components/playlist.go`), the library track-number
extraction (`internal/library/library.go`, concatenated into
`internal/ui/keymap.go`), and the Bubbletea update loop with its
pending-transition controller (the current `update.go` revision).

Go slices become `List`, Go `int` becomes `Int` (indices are compared
before any list access, exactly as the source does), `time.Duration`
(an `int64`) becomes `Int`, and nil-able pointers become `Option`.
The Bubbletea table cursor used by the playlist is modelled by a
`cursor` field together with the table's `SetCursor` clamping
behaviour.
-/

namespace Vgmtui

/-- `components.Track` (playlist.go): value type for one playlist entry.
`Duration` is a `time.Duration`, i.e. an `int64` nanosecond count. -/
structure Track where
  path : String
  title : String
  game : String
  system : String
  composer : String
  duration : Int
  deriving Repr, DecidableEq

/-- `LoopMode` (playlist.go): `LoopNone`, `LoopOne`, `LoopAll`. -/
inductive LoopMode where
  | lnone
  | lone
  | lall
  deriving Repr, DecidableEq

/-- `components.Playlist` (playlist.go): the track queue.  `current` is the
currently playing index (-1 if none).  `cursor` models `p.table.Cursor()`,
the highlighted row of the embedded Bubbletea table. -/
structure Playlist where
  tracks : List Track
  current : Int
  cursor : Int
  loopMode : LoopMode
  deriving Repr, DecidableEq

namespace Playlist

/-- Models `p.table.SetCursor(n)` of the Bubbletea table used by the
playlist: `m.cursor = clamp(n, 0, len(m.rows)-1)`. -/
def setCursor (p : Playlist) (n : Int) : Playlist :=
  { p with cursor := min (max n 0) ((p.tracks.length : Int) - 1) }

/-- `updateTableRows` (playlist.go): rebuilds the table rows from `tracks`;
saves the cursor and restores it if still valid, else moves it to row 0
when rows remain.  Row contents are rendering only, so just the cursor
bookkeeping is modelled. -/
def updateTableRows (p : Playlist) : Playlist :=
  if 0 ≤ p.cursor ∧ p.cursor < (p.tracks.length : Int) then p.setCursor p.cursor
  else if 0 < p.tracks.length then p.setCursor 0
  else p

/-- `GetTrack` (playlist.go): returns a copy of the track at `index`, or
nil (`none`) if out of bounds. -/
def getTrack (p : Playlist) (index : Int) : Option Track :=
  if index < 0 ∨ (p.tracks.length : Int) ≤ index then none
  else p.tracks[index.toNat]?

/-- `SelectedIndex` (playlist.go): the table cursor. -/
def selectedIndex (p : Playlist) : Int := p.cursor

/-- `CurrentIndex` (playlist.go). -/
def currentIndex (p : Playlist) : Int := p.current

/-- `AddTrack` (playlist.go): append one track. -/
def addTrack (p : Playlist) (t : Track) : Playlist :=
  updateTableRows { p with tracks := p.tracks ++ [t] }

/-- `AddTracks` (playlist.go): append several tracks. -/
def addTracks (p : Playlist) (ts : List Track) : Playlist :=
  updateTableRows { p with tracks := p.tracks ++ ts }

/-- `RemoveSelected` (playlist.go): remove the track at the cursor,
adjusting `current` (decrement if an earlier track was removed, -1 if the
current track itself was removed) and clamping the cursor afterwards. -/
def removeSelected (p : Playlist) : Playlist :=
  if p.tracks.length = 0 then p
  else
    let idx := p.cursor
    if idx < 0 ∨ (p.tracks.length : Int) ≤ idx then p
    else
      let n := idx.toNat
      let tracks' := p.tracks.take n ++ p.tracks.drop (n + 1)
      let current' :=
        if 0 ≤ p.current then
          if idx < p.current then p.current - 1
          else if idx = p.current then -1
          else p.current
        else p.current
      let p1 := updateTableRows { p with tracks := tracks', current := current' }
      if (tracks'.length : Int) ≤ idx ∧ 0 < tracks'.length then
        p1.setCursor ((tracks'.length : Int) - 1)
      else p1

/-- `Clear` (playlist.go): drop every track and reset `current` to -1. -/
def clear (p : Playlist) : Playlist :=
  updateTableRows { p with tracks := [], current := -1 }

/-- `SetCurrentTrack` (playlist.go): set `current` to `index` when it is a
valid index (or -1), else -1. -/
def setCurrentTrack (p : Playlist) (index : Int) : Playlist :=
  let index := if index < -1 then -1 else index
  let index := if (p.tracks.length : Int) ≤ index then -1 else index
  updateTableRows { p with current := index }

/-- `NextTrack` (playlist.go): advance `current`, wrapping to 0 under
`LoopAll`; returns the new index, or -1 (leaving the playlist untouched)
at the end without `LoopAll`. -/
def nextTrack (p : Playlist) : Int × Playlist :=
  if p.tracks.length = 0 then (-1, p)
  else if p.current < 0 then
    let p' := updateTableRows { p with current := 0 }
    (p'.current, p')
  else if p.current < (p.tracks.length : Int) - 1 then
    let p' := updateTableRows { p with current := p.current + 1 }
    (p'.current, p')
  else if p.loopMode = .lall then
    let p' := updateTableRows { p with current := 0 }
    (p'.current, p')
  else (-1, p)

/-- `PrevTrack` (playlist.go): retreat `current`, wrapping to the end
under `LoopAll`; returns the new index, or -1 (leaving the playlist
untouched) at the start without `LoopAll`. -/
def prevTrack (p : Playlist) : Int × Playlist :=
  if p.tracks.length = 0 then (-1, p)
  else if p.current ≤ 0 then
    if p.loopMode = .lall ∧ 0 < p.tracks.length then
      let p' := updateTableRows { p with current := (p.tracks.length : Int) - 1 }
      (p'.current, p')
    else (-1, p)
  else
    let p' := updateTableRows { p with current := p.current - 1 }
    (p'.current, p')

/-- Modelled from the spec: `PeekNextTrack` is called by the update loop
(src/unnamed/part_001) but its body is not among the source files.
Spec 4.1: "`PeekNextTrack()` / `PeekPrevTrack()` (non-mutating): same
boundary logic" as `NextTrack`. -/
def peekNextTrack (p : Playlist) : Int :=
  if p.tracks.length = 0 then -1
  else if p.current < 0 then 0
  else if p.current < (p.tracks.length : Int) - 1 then p.current + 1
  else if p.loopMode = .lall then 0
  else -1

/-- Modelled from the spec: `PeekPrevTrack` is called by the update loop
(src/unnamed/part_001) but its body is not among the source files.
Spec 4.1: same boundary logic as `PrevTrack`, non-mutating. -/
def peekPrevTrack (p : Playlist) : Int :=
  if p.tracks.length = 0 then -1
  else if p.current ≤ 0 then
    if p.loopMode = .lall ∧ 0 < p.tracks.length then (p.tracks.length : Int) - 1
    else -1
  else p.current - 1

/-- Modelled from the spec: `ClearCurrent` is called by `stopPlayback`
(src/unnamed/part_001) but its body is not among the source files.
Spec 4.3: on stop, "clear 'now playing'", i.e. reset `current` to -1. -/
def clearCurrent (p : Playlist) : Playlist :=
  { p with current := -1 }

/-- Swap two positions of a list (the Go parallel assignment
`l[i], l[j] = l[j], l[i]`); identity when either index is out of range. -/
def listSwap (l : List Track) (i j : Nat) : List Track :=
  match l[i]?, l[j]? with
  | some a, some b => (l.set i b).set j a
  | _, _ => l

/-- `MoveUp` (playlist.go): swap the cursor row with the one above it,
keeping `current` attached to the same position's track. -/
def moveUp (p : Playlist) : Playlist :=
  let idx := p.cursor
  if idx ≤ 0 ∨ (p.tracks.length : Int) ≤ idx then p
  else
    let n := idx.toNat
    let tracks' := listSwap p.tracks n (n - 1)
    let current' :=
      if p.current = idx then p.current - 1
      else if p.current = idx - 1 then p.current + 1
      else p.current
    (updateTableRows { p with tracks := tracks', current := current' }).setCursor (idx - 1)

/-- `MoveDown` (playlist.go): swap the cursor row with the one below it,
keeping `current` attached to the same position's track. -/
def moveDown (p : Playlist) : Playlist :=
  let idx := p.cursor
  if idx < 0 ∨ (p.tracks.length : Int) - 1 ≤ idx then p
  else
    let n := idx.toNat
    let tracks' := listSwap p.tracks n (n + 1)
    let current' :=
      if p.current = idx then p.current + 1
      else if p.current = idx + 1 then p.current - 1
      else p.current
    (updateTableRows { p with tracks := tracks', current := current' }).setCursor (idx + 1)

/-- The Fisher-Yates loop of `Shuffle` (playlist.go):
`for i := len-1; i > 0; i-- { j := rand.Intn(i+1); swap(i, j) }`.
`rand i` models the value drawn by `rand.Intn(i+1)`; taking it modulo
`i+1` quantifies over every sequence of in-range draws. -/
def fyLoop (rand : Nat → Nat) : List Track → Nat → List Track
  | l, 0 => l
  | l, i + 1 => fyLoop rand (listSwap l (i + 1) (rand (i + 1) % (i + 2))) i

/-- `Shuffle` (playlist.go).  NOTE the source takes
`currentTrack = &p.tracks[p.current]` -- a pointer INTO the slice -- before
the in-place Fisher-Yates loop, so after the loop `currentTrack.Path`
reads whatever track the permutation left in slot `p.current`.  The
relocation scan then searches for that path.  The embedding reproduces
this aliasing exactly. -/
def shuffle (p : Playlist) (rand : Nat → Nat) : Playlist :=
  if p.tracks.length ≤ 1 then p
  else
    let tracks' := fyLoop rand p.tracks (p.tracks.length - 1)
    let current' :=
      if 0 ≤ p.current ∧ p.current < (p.tracks.length : Int) then
        match tracks'[p.current.toNat]? with
        | some aliased =>
          match tracks'.findIdx? (fun t => t.path = aliased.path) with
          | some i => (i : Int)
          | none => p.current
        | none => p.current
      else p.current
    updateTableRows { p with tracks := tracks', current := current' }

/-- `CycleLoopMode` (playlist.go): None -> One -> All -> None. -/
def cycleLoopMode (p : Playlist) : Playlist :=
  { p with loopMode :=
      match p.loopMode with
      | .lnone => .lone
      | .lone => .lall
      | .lall => .lnone }

@[simp] theorem setCursor_tracks (p : Playlist) (n : Int) :
    (p.setCursor n).tracks = p.tracks := rfl

@[simp] theorem setCursor_current (p : Playlist) (n : Int) :
    (p.setCursor n).current = p.current := rfl

@[simp] theorem setCursor_loopMode (p : Playlist) (n : Int) :
    (p.setCursor n).loopMode = p.loopMode := rfl

@[simp] theorem updateTableRows_tracks (p : Playlist) :
    (updateTableRows p).tracks = p.tracks := by
  unfold updateTableRows; split_ifs <;> rfl

@[simp] theorem updateTableRows_current (p : Playlist) :
    (updateTableRows p).current = p.current := by
  unfold updateTableRows; split_ifs <;> rfl

@[simp] theorem updateTableRows_loopMode (p : Playlist) :
    (updateTableRows p).loopMode = p.loopMode := by
  unfold updateTableRows; split_ifs <;> rfl

end Playlist

open Playlist

/-- A concrete sample track (used by concrete evaluations below). -/
def trA : Track := ⟨"/music/a.vgm", "A", "G1", "S1", "C1", 180⟩

/-- A second concrete sample track with a distinct path. -/
def trB : Track := ⟨"/music/b.vgm", "B", "G1", "S1", "C1", 120⟩

/-- A concrete two-track playlist with nothing playing. -/
def pl2W : Playlist := ⟨[trA, trB], -1, 0, .lnone⟩

/-- A concrete empty playlist. -/
def plEmptyW : Playlist := ⟨[], -1, 0, .lnone⟩

/-- A third concrete sample track with a distinct path. -/
def trC : Track := ⟨"/music/c.vgm", "C", "G1", "S1", "C1", 60⟩

/-- A concrete three-track playlist in LoopAll mode playing track 0. -/
def pl3AllW : Playlist := ⟨[trA, trB, trC], 0, 0, .lall⟩

/-- A concrete three-track playlist in LoopNone mode at the last track. -/
def pl3NoneEndW : Playlist := ⟨[trA, trB, trC], 2, 0, .lnone⟩

/-- C7: `PeekNextTrack`/`PeekPrevTrack` return exactly the index
`NextTrack`/`PrevTrack` would return (same boundary and loop-mode logic)
without touching the playlist -- they are pure functions of it -- while
`NextTrack`/`PrevTrack` commit the returned index into `currentIndex`
whenever it is non-negative. -/
theorem peek_agrees_with_advance (p : Playlist) :
    peekNextTrack p = (nextTrack p).1 ∧
    peekPrevTrack p = (prevTrack p).1 ∧
    (0 ≤ (nextTrack p).1 → (nextTrack p).2.current = (nextTrack p).1) ∧
    (0 ≤ (prevTrack p).1 → (prevTrack p).2.current = (prevTrack p).1) := by
  refine ⟨?_, ?_, ?_, ?_⟩
  · simp only [peekNextTrack, nextTrack]; split_ifs <;> simp_all
  · simp only [peekPrevTrack, prevTrack]; split_ifs <;> simp_all
  · simp only [nextTrack]; split_ifs <;> simp_all
  · simp only [prevTrack]; split_ifs <;> simp_all

/-- C7 witness: peek and advance agree on a concrete two-track playlist,
and the advance commits the index it returned. -/
theorem peek_agrees_with_advance_witness :
    peekNextTrack pl2W = (nextTrack pl2W).1 ∧
    (nextTrack pl2W).2.current = (nextTrack pl2W).1 :=
  ⟨(peek_agrees_with_advance pl2W).1,
   (peek_agrees_with_advance pl2W).2.2.1 (by decide)⟩

/-- C10: on a non-empty playlist with `currentIndex = -1` (in the source,
any negative value), `NextTrack` starts at track 0 and returns 0, for
every loop mode. -/
theorem nextTrack_from_idle (p : Playlist) (hne : p.tracks ≠ [])
    (hcur : p.current < 0) :
    (nextTrack p).1 = 0 ∧ (nextTrack p).2.current = 0 := by
  unfold nextTrack
  split_ifs <;> simp_all

/-- C10 witness: advancing the concrete idle playlist yields index 0. -/
theorem nextTrack_from_idle_witness :
    (nextTrack pl2W).1 = 0 ∧ (nextTrack pl2W).2.current = 0 :=
  nextTrack_from_idle pl2W (by decide) (by decide)

/-- C9: operations on an empty playlist or an out-of-range index are
defensive no-ops with sentinel results: `GetTrack` answers `none` outside
`[0, len)`, `SetCurrentTrack` falls back to -1, and on an empty playlist
`RemoveSelected`, `MoveUp`, `MoveDown` and `Shuffle` (for every random
draw sequence) return the playlist unchanged while `NextTrack` and
`PrevTrack` return the -1 sentinel without touching it. -/
theorem empty_or_oob_is_noop (p : Playlist) (i : Int) :
    ((i < 0 ∨ (p.tracks.length : Int) ≤ i) → getTrack p i = none) ∧
    ((i < -1 ∨ (p.tracks.length : Int) ≤ i) →
      (setCurrentTrack p i).current = -1) ∧
    (p.tracks = [] →
      removeSelected p = p ∧ moveUp p = p ∧ moveDown p = p ∧
      (∀ r, shuffle p r = p) ∧
      nextTrack p = (-1, p) ∧ prevTrack p = (-1, p)) := by
  refine ⟨fun h => by unfold getTrack; split_ifs <;> simp_all, ?_, fun he => ?_⟩
  · intro h
    unfold setCurrentTrack
    split_ifs <;> simp_all
  · have hlen : p.tracks.length = 0 := by simp [he]
    refine ⟨?_, ?_, ?_, fun r => ?_, ?_, ?_⟩
    · unfold removeSelected; simp [hlen]
    · unfold moveUp
      rw [if_pos]
      rw [hlen]
      omega
    · unfold moveDown
      rw [if_pos]
      rw [hlen]
      omega
    · unfold shuffle; rw [if_pos (by omega)]
    · unfold nextTrack; simp [hlen]
    · unfold prevTrack; simp [hlen]

/-- C9 witness: on a concrete empty playlist, index 5 is rejected and the
mutating operations are identities. -/
theorem empty_or_oob_is_noop_witness :
    getTrack plEmptyW 5 = none ∧ removeSelected plEmptyW = plEmptyW :=
  ⟨(empty_or_oob_is_noop plEmptyW 5).1 (by decide),
   ((empty_or_oob_is_noop plEmptyW 5).2.2 (by decide)).1⟩

/-- The index sequence produced by `n` consecutive `NextTrack` calls,
each call running on the playlist state the previous one returned. -/
def nextTrackRun : Playlist → Nat → List Int
  | _, 0 => []
  | p, n + 1 =>
    ((nextTrack p).1) :: nextTrackRun (nextTrack p).2 n

theorem nextTrack_step (p : Playlist) (h0 : 0 ≤ p.current)
    (hlt : p.current < (p.tracks.length : Int) - 1) :
    (nextTrack p).1 = p.current + 1 ∧
    (nextTrack p).2.current = p.current + 1 ∧
    (nextTrack p).2.tracks = p.tracks ∧
    (nextTrack p).2.loopMode = p.loopMode := by
  simp only [nextTrack]
  split_ifs <;> simp_all <;> try omega

theorem nextTrack_wrap (p : Playlist) (hall : p.loopMode = .lall)
    (hne : p.tracks.length ≠ 0)
    (hend : p.current = (p.tracks.length : Int) - 1) :
    (nextTrack p).1 = 0 ∧ (nextTrack p).2.current = 0 ∧
    (nextTrack p).2.tracks = p.tracks ∧
    (nextTrack p).2.loopMode = p.loopMode := by
  simp only [nextTrack]
  split_ifs <;> simp_all <;> try omega

/-- The expected answer of the `k`-th `NextTrack` call of a LoopAll run
that started at index `c` of an `len`-track playlist. -/
def advSeq (len c k : Nat) : Int :=
  if c + k + 2 ≤ len then ((c : Int) + (k : Int) + 1) else 0

theorem nextTrackRun_all (n : Nat) : ∀ (p : Playlist) (c : Nat),
    p.loopMode = .lall → p.current = (c : Int) → c < p.tracks.length →
    n + c = p.tracks.length →
    nextTrackRun p n = (List.range n).map (advSeq p.tracks.length c) := by
  induction n with
  | zero => intro p c _ _ _ _; simp [nextTrackRun]
  | succ n ih =>
    intro p c hall hcur hclt hsum
    by_cases hmid : c + 1 < p.tracks.length
    · have hstep := nextTrack_step p (by omega) (by push_cast [Int.lt_iff_add_one_le]; omega)
      have hrec := ih (nextTrack p).2 (c + 1)
        (by rw [hstep.2.2.2]; exact hall)
        (by rw [hstep.2.1, hcur]; push_cast; omega)
        (by rw [hstep.2.2.1]; omega)
        (by rw [hstep.2.2.1]; omega)
      rw [hstep.2.2.1] at hrec
      rw [nextTrackRun, hstep.1, hcur, hrec, List.range_succ_eq_map,
        List.map_cons, List.map_map]
      congr 1
      · unfold advSeq
        rw [if_pos (by omega)]
        push_cast
        omega
      · apply List.map_congr_left
        intro k _
        simp only [Function.comp_apply, advSeq]
        split_ifs <;> omega
    · have hc : c = p.tracks.length - 1 := by omega
      have hn : n = 0 := by omega
      subst hn
      have hw := nextTrack_wrap p hall (by omega)
        (by rw [hcur, hc]; omega)
      rw [nextTrackRun, nextTrackRun, hw.1]
      simp only [List.range_succ, List.range_zero, List.nil_append,
        List.map_cons, List.map_nil, advSeq]
      rw [if_neg (by omega)]

/-- C6: with loop mode All and a playlist of `N` tracks, `N` consecutive
`NextTrack` calls starting from index 0 return 1, 2, ..., N-1, 0; with
loop mode None and `currentIndex` at the last track, `NextTrack` returns
the -1 sentinel and leaves the playlist (hence `currentIndex`) unchanged. -/
theorem nextTrack_loop_sequences (p : Playlist) :
    (p.loopMode = .lall → p.current = 0 → p.tracks ≠ [] →
      nextTrackRun p p.tracks.length = (List.range p.tracks.length).map
        (fun k => if k + 2 ≤ p.tracks.length then ((k : Int) + 1) else 0)) ∧
    (p.loopMode = .lnone → p.current = (p.tracks.length : Int) - 1 →
      p.tracks ≠ [] → nextTrack p = (-1, p)) := by
  constructor
  · intro hall hcur hne
    have hlen : 0 < p.tracks.length := by
      cases hl : p.tracks with
      | nil => exact absurd hl hne
      | cons a l => simp
    have := nextTrackRun_all p.tracks.length p 0 hall (by exact_mod_cast hcur)
      hlen (by omega)
    rw [this]
    apply List.map_congr_left
    intro k _
    simp only [advSeq]
    split_ifs <;> omega
  · intro hnone hcur hne
    have hlen : 0 < p.tracks.length := by
      cases hl : p.tracks with
      | nil => exact absurd hl hne
      | cons a l => simp
    simp only [nextTrack]
    split_ifs <;> simp_all

/-- C6 witness: on a concrete three-track playlist in LoopAll mode the
run is [1, 2, 0]; on the same tracks in LoopNone mode at the last index,
`NextTrack` returns -1 and changes nothing. -/
theorem nextTrack_loop_sequences_witness :
    nextTrackRun pl3AllW 3 = [1, 2, 0] ∧
    nextTrack pl3NoneEndW = (-1, pl3NoneEndW) := by
  constructor
  · have := (nextTrack_loop_sequences pl3AllW).1 (by decide) (by decide)
      (by decide)
    rw [show pl3AllW.tracks.length = 3 by decide] at this
    rw [this]; decide
  · exact (nextTrack_loop_sequences pl3NoneEndW).2 (by decide) (by decide)
      (by decide)

/-!
## Library track-number extraction

`extractTrackNumber` and `trackNumberPatterns`
(`internal/library/library.go`, appearing concatenated inside
`internal/ui/keymap.go`).  Go's regexp `\d` is ASCII `[0-9]`, `\s` is
`[\t\n\f\r ]`, and every pattern is anchored at the start; each pattern
is embedded as a function from the filename's characters to the optional
first capture group.  Since the character class following `\d{1,3}` never
contains a digit, backtracking cannot shorten the captured digit run, so
each embedding takes the maximal leading digit run and requires its
length to be at most 3 (except the `track`-prefixed pattern, whose
unconstrained greedy `\d{1,3}` captures the first three digits of the
run). -/

/-- The regexp class `\d` (ASCII decimal digit). -/
def isDigitCh (c : Char) : Bool := '0' ≤ c && c ≤ '9'

/-- The regexp class `\s` as implemented by Go's regexp:
tab, newline, form feed, carriage return, space. -/
def isSpaceCh (c : Char) : Bool :=
  c = '\t' || c = '\n' || c = '\x0c' || c = '\r' || c = ' '

/-- The separator class `[-._)\]]` of the first pattern. -/
def isSepCh (c : Char) : Bool :=
  c = '-' || c = '.' || c = '_' || c = ')' || c = ']'

/-- `^(\d{1,3})\s*[-._)\]]\s*`: "01 - Title", "01_Title", "01.Title",
"01) Title".  The separator and space classes contain no digit, so the
group is exactly the leading digit run, which must have length 1-3. -/
def matchNumSep (cs : List Char) : Option (List Char) :=
  let ds := cs.takeWhile isDigitCh
  if ds.length = 0 || 3 < ds.length then none
  else
    match (cs.dropWhile isDigitCh).dropWhile isSpaceCh with
    | c :: _ => if isSepCh c then some ds else none
    | [] => none

/-- `^\[(\d{1,3})\]`: "[01] Title". -/
def matchBracketNum : List Char → Option (List Char)
  | '[' :: rest =>
    let ds := rest.takeWhile isDigitCh
    if ds.length = 0 || 3 < ds.length then none
    else
      match rest.dropWhile isDigitCh with
      | ']' :: _ => some ds
      | _ => none
  | _ => none

/-- `^\((\d{1,3})\)`: "(01) Title". -/
def matchParenNum : List Char → Option (List Char)
  | '(' :: rest =>
    let ds := rest.takeWhile isDigitCh
    if ds.length = 0 || 3 < ds.length then none
    else
      match rest.dropWhile isDigitCh with
      | ')' :: _ => some ds
      | _ => none
  | _ => none

/-- `(?i)^track\s*(\d{1,3})`: "Track 01", "Track01".  The greedy group
has no following constraint, so it captures the first (up to) three
digits of the run after the optional spaces. -/
def matchTrackWord (cs : List Char) : Option (List Char) :=
  match cs with
  | c0 :: c1 :: c2 :: c3 :: c4 :: rest =>
    if c0.toLower = 't' && c1.toLower = 'r' && c2.toLower = 'a' &&
        c3.toLower = 'c' && c4.toLower = 'k' then
      let ds := (rest.dropWhile isSpaceCh).takeWhile isDigitCh
      if ds.length = 0 then none else some (ds.take 3)
    else none
  | _ => none

/-- `^(\d{1,3})$`: the whole (extension-stripped) name is 1-3 digits. -/
def matchBareNum (cs : List Char) : Option (List Char) :=
  if cs.length ≠ 0 && cs.length ≤ 3 && cs.all isDigitCh then some cs
  else none

/-- `^(\d{1,3})\s`: "01 Title" (number followed by whitespace). -/
def matchNumSpace (cs : List Char) : Option (List Char) :=
  let ds := cs.takeWhile isDigitCh
  if ds.length = 0 || 3 < ds.length then none
  else
    match cs.dropWhile isDigitCh with
    | c :: _ => if isSpaceCh c then some ds else none
    | [] => none

/-- `trackNumberPatterns` (library.go), in source order. -/
def trackNumberPatterns : List (List Char → Option (List Char)) :=
  [matchNumSep, matchBracketNum, matchParenNum, matchTrackWord,
   matchBareNum, matchNumSpace]

/-- `vgmExtensions` (library.go), as character lists. -/
def vgmExtensions : List (List Char) :=
  [".vgm".toList, ".vgz".toList, ".s98".toList, ".dro".toList,
   ".gym".toList]

/-- The extension-stripping prologue of `extractTrackNumber`: drop the
first (in source order) VGM extension that the lowercased name ends
with.  The extensions are ASCII, so Go's byte-oriented
`strings.HasSuffix`/slicing and this character-level version agree. -/
def stripExt (name : List Char) : List Char :=
  match vgmExtensions.find? (fun e => List.isSuffixOf e (name.map Char.toLower)) with
  | some e => name.take (name.length - e.length)
  | none => name

/-- `strconv.Atoi` on a non-empty all-digit string (the only shape a
capture group can have here): its decimal value. -/
def digitsVal (ds : List Char) : Nat :=
  ds.foldl (fun a c => 10 * a + (c.toNat - '0'.toNat)) 0

/-- The pattern loop of `extractTrackNumber`: first pattern whose match
parses to a number in `1..999` wins; otherwise 0. -/
def firstTrackNum : List (List Char → Option (List Char)) → List Char → Nat
  | [], _ => 0
  | m :: ms, name =>
    match m name with
    | some ds =>
      let num := digitsVal ds
      if 0 < num ∧ num ≤ 999 then num else firstTrackNum ms name
    | none => firstTrackNum ms name

/-- `extractTrackNumber` (library.go): strip the extension, then try the
patterns in order; 0 means unknown. -/
def extractTrackNumber (filename : String) : Nat :=
  firstTrackNum trackNumberPatterns (stripExt filename.toList)

theorem firstTrackNum_all_none (ms : List (List Char → Option (List Char)))
    (name : List Char) (h : ms.all (fun m => (m name).isNone) = true) :
    firstTrackNum ms name = 0 := by
  induction ms with
  | nil => rfl
  | cons m ms ih =>
    rw [List.all_cons, Bool.and_eq_true] at h
    rw [firstTrackNum]
    rcases ho : m name with _ | ds
    · exact ih h.2
    · rw [ho] at h
      simp at h

/-- C8: the track-number extractor maps "03 - Boss Theme.vgm" to 3 and
"[12] Ending.vgz" to 12, and yields 0 (unknown) for any filename on which
no recognised pattern matches, e.g. "Ending Theme.vgm". -/
theorem extractTrackNumber_cases :
    extractTrackNumber "03 - Boss Theme.vgm" = 3 ∧
    extractTrackNumber "[12] Ending.vgz" = 12 ∧
    extractTrackNumber "Ending Theme.vgm" = 0 ∧
    (∀ s : String,
      trackNumberPatterns.all (fun m => (m (stripExt s.toList)).isNone) = true →
      extractTrackNumber s = 0) :=
  ⟨by decide, by decide, by decide,
   fun s h => firstTrackNum_all_none trackNumberPatterns (stripExt s.toList) h⟩

/-- C8 witness: "Ending Theme.vgm" matches none of the patterns, and the
universally quantified part of C8 therefore sends it to 0. -/
theorem extractTrackNumber_cases_witness :
    extractTrackNumber "Ending Theme.vgm" = 0 :=
  extractTrackNumber_cases.2.2.2 "Ending Theme.vgm" (by decide)

/-!
## The `currentIndex` invariant (C5)
-/

/-- The playlist mutations quantified over by the invariant: AddTrack,
AddTracks, RemoveSelected, MoveUp, MoveDown. -/
inductive PlOp where
  | add (t : Track)
  | addMany (ts : List Track)
  | removeSel
  | moveUpOp
  | moveDownOp
  deriving Repr, DecidableEq

/-- Run one playlist operation. -/
def applyOp (p : Playlist) : PlOp → Playlist
  | .add t => addTrack p t
  | .addMany ts => addTracks p ts
  | .removeSel => removeSelected p
  | .moveUpOp => moveUp p
  | .moveDownOp => moveDown p

/-- The data-model invariant: `currentIndex` is -1 or a valid index. -/
def curOK (p : Playlist) : Prop :=
  p.current = -1 ∨ (0 ≤ p.current ∧ p.current < (p.tracks.length : Int))

instance (p : Playlist) : Decidable (curOK p) := by
  unfold curOK; infer_instance

theorem listSwap_length (l : List Track) (i j : Nat) :
    (listSwap l i j).length = l.length := by
  unfold listSwap
  split <;> simp

theorem listSwap_get_fst (l : List Track) (i j : Nat)
    (hi : i < l.length) (hj : j < l.length) :
    (listSwap l i j)[i]? = l[j]? := by
  unfold listSwap
  rw [List.getElem?_eq_getElem hi, List.getElem?_eq_getElem hj]
  by_cases hij : i = j
  · subst hij
    rw [List.getElem?_set_self (by simpa using hi)]
  · rw [List.getElem?_set_ne (fun h => hij h.symm),
      List.getElem?_set_self hi]

theorem listSwap_get_snd (l : List Track) (i j : Nat)
    (hi : i < l.length) (hj : j < l.length) :
    (listSwap l i j)[j]? = l[i]? := by
  unfold listSwap
  rw [List.getElem?_eq_getElem hi, List.getElem?_eq_getElem hj]
  rw [List.getElem?_set_self (by simpa using hj)]

theorem listSwap_get_other (l : List Track) (i j k : Nat)
    (hki : k ≠ i) (hkj : k ≠ j) :
    (listSwap l i j)[k]? = l[k]? := by
  unfold listSwap
  split
  · rw [List.getElem?_set_ne (fun h => hkj h.symm),
      List.getElem?_set_ne (fun h => hki h.symm)]
  · rfl

theorem removedAt_get_lt (l : List Track) (n k : Nat)
    (hn : n ≤ l.length) (hk : k < n) :
    (l.take n ++ l.drop (n + 1))[k]? = l[k]? := by
  rw [List.getElem?_append_left (by rw [List.length_take]; omega),
    List.getElem?_take, if_pos hk]

theorem removedAt_get_ge (l : List Track) (n k : Nat)
    (hn : n ≤ l.length) (hk : n ≤ k) :
    (l.take n ++ l.drop (n + 1))[k]? = l[k + 1]? := by
  rw [List.getElem?_append_right (by rw [List.length_take]; omega),
    List.getElem?_drop]
  congr 1
  rw [List.length_take]
  omega

theorem removeSelected_fields (p : Playlist) (h1 : ¬ p.tracks.length = 0)
    (h2 : ¬ (p.cursor < 0 ∨ (p.tracks.length : Int) ≤ p.cursor)) :
    (removeSelected p).tracks =
      p.tracks.take p.cursor.toNat ++ p.tracks.drop (p.cursor.toNat + 1) ∧
    (removeSelected p).current =
      (if 0 ≤ p.current then
        if p.cursor < p.current then p.current - 1
        else if p.cursor = p.current then -1
        else p.current
      else p.current) := by
  unfold removeSelected
  rw [if_neg h1, if_neg h2]
  constructor
  · simp [apply_ite Playlist.tracks]
  · simp [apply_ite Playlist.current]

theorem removeSelected_spec (p : Playlist) (hcur : curOK p) :
    curOK (removeSelected p) ∧
    (0 ≤ p.current →
      ((removeSelected p).current = -1 ∧ p.cursor = p.current) ∨
      (0 ≤ (removeSelected p).current ∧
        (removeSelected p).tracks[(removeSelected p).current.toNat]? =
          p.tracks[p.current.toNat]?)) := by
  by_cases h1 : p.tracks.length = 0
  · have hid : removeSelected p = p := by unfold removeSelected; rw [if_pos h1]
    rw [hid]
    exact ⟨hcur, fun h0 => Or.inr ⟨h0, rfl⟩⟩
  by_cases h2 : p.cursor < 0 ∨ (p.tracks.length : Int) ≤ p.cursor
  · have hid : removeSelected p = p := by
      unfold removeSelected; rw [if_neg h1, if_pos h2]
    rw [hid]
    exact ⟨hcur, fun h0 => Or.inr ⟨h0, rfl⟩⟩
  obtain ⟨htr, hcu⟩ := removeSelected_fields p h1 h2
  push_neg at h2
  obtain ⟨hc0, hclen⟩ := h2
  have hnlt : p.cursor.toNat < p.tracks.length := by omega
  have hlen' : (removeSelected p).tracks.length = p.tracks.length - 1 := by
    rw [htr, List.length_append, List.length_take, List.length_drop]
    omega
  rcases hcur with hm1 | ⟨hge, hlt⟩
  · rw [hm1] at hcu
    rw [if_neg (by omega)] at hcu
    refine ⟨Or.inl (by rw [hcu]), fun h0 => ?_⟩
    exfalso
    omega
  · rw [if_pos hge] at hcu
    rcases lt_trichotomy p.cursor p.current with hlt2 | heq | hgt
    · rw [if_pos hlt2] at hcu
      constructor
      · right
        constructor
        · rw [hcu]; omega
        · rw [hcu]
          push_cast [hlen']
          omega
      · intro _
        right
        refine ⟨by rw [hcu]; omega, ?_⟩
        rw [htr, hcu]
        rw [removedAt_get_ge p.tracks _ _ (by omega) (by omega)]
        congr 1
        omega
    · rw [if_neg (by omega), if_pos heq] at hcu
      exact ⟨Or.inl hcu, fun _ => Or.inl ⟨hcu, heq⟩⟩
    · rw [if_neg (by omega), if_neg (by omega)] at hcu
      constructor
      · right
        constructor
        · rw [hcu]; omega
        · rw [hcu]
          push_cast [hlen']
          omega
      · intro _
        right
        refine ⟨by rw [hcu]; omega, ?_⟩
        rw [htr, hcu]
        exact removedAt_get_lt p.tracks _ _ (by omega) (by omega)

theorem moveUp_fields (p : Playlist)
    (hg : ¬ (p.cursor ≤ 0 ∨ (p.tracks.length : Int) ≤ p.cursor)) :
    (moveUp p).tracks = listSwap p.tracks p.cursor.toNat (p.cursor.toNat - 1) ∧
    (moveUp p).current =
      (if p.current = p.cursor then p.current - 1
      else if p.current = p.cursor - 1 then p.current + 1
      else p.current) := by
  unfold moveUp
  rw [if_neg hg]
  exact ⟨by simp, by simp⟩

theorem moveDown_fields (p : Playlist)
    (hg : ¬ (p.cursor < 0 ∨ (p.tracks.length : Int) - 1 ≤ p.cursor)) :
    (moveDown p).tracks = listSwap p.tracks p.cursor.toNat (p.cursor.toNat + 1) ∧
    (moveDown p).current =
      (if p.current = p.cursor then p.current + 1
      else if p.current = p.cursor + 1 then p.current - 1
      else p.current) := by
  unfold moveDown
  rw [if_neg hg]
  exact ⟨by simp, by simp⟩

theorem moveUp_spec (p : Playlist) (hcur : curOK p) :
    curOK (moveUp p) ∧
    (0 ≤ p.current →
      0 ≤ (moveUp p).current ∧
      (moveUp p).tracks[(moveUp p).current.toNat]? =
        p.tracks[p.current.toNat]?) := by
  by_cases hg : p.cursor ≤ 0 ∨ (p.tracks.length : Int) ≤ p.cursor
  · have hid : moveUp p = p := by unfold moveUp; rw [if_pos hg]
    rw [hid]
    exact ⟨hcur, fun h0 => ⟨h0, rfl⟩⟩
  obtain ⟨htr, hcu⟩ := moveUp_fields p hg
  push_neg at hg
  obtain ⟨hc1, hclen⟩ := hg
  have hn1 : 1 ≤ p.cursor.toNat := by omega
  have hnlt : p.cursor.toNat < p.tracks.length := by omega
  have hlen' : (moveUp p).tracks.length = p.tracks.length := by
    rw [htr, listSwap_length]
  rcases hcur with hm1 | ⟨hge, hlt⟩
  · rw [hm1, if_neg (by omega), if_neg (by omega)] at hcu
    refine ⟨Or.inl (by rw [hcu]), fun h0 => ?_⟩
    exfalso
    omega
  · by_cases he1 : p.current = p.cursor
    · rw [if_pos he1] at hcu
      refine ⟨Or.inr ⟨by omega, by rw [hcu]; omega⟩, fun _ => ⟨by omega, ?_⟩⟩
      rw [htr, hcu]
      have : (p.current - 1).toNat = p.cursor.toNat - 1 := by omega
      rw [this, listSwap_get_snd p.tracks _ _ hnlt (by omega)]
      congr 1
      omega
    · by_cases he2 : p.current = p.cursor - 1
      · rw [if_neg he1, if_pos he2] at hcu
        refine ⟨Or.inr ⟨by omega, by rw [hcu]; omega⟩, fun _ => ⟨by omega, ?_⟩⟩
        rw [htr, hcu]
        have : (p.current + 1).toNat = p.cursor.toNat := by omega
        rw [this, listSwap_get_fst p.tracks _ _ hnlt (by omega)]
        congr 1
        omega
      · rw [if_neg he1, if_neg he2] at hcu
        refine ⟨Or.inr ⟨by omega, by rw [hcu]; omega⟩, fun _ => ⟨by omega, ?_⟩⟩
        rw [htr, hcu]
        exact listSwap_get_other p.tracks _ _ _ (by omega) (by omega)

theorem moveDown_spec (p : Playlist) (hcur : curOK p) :
    curOK (moveDown p) ∧
    (0 ≤ p.current →
      0 ≤ (moveDown p).current ∧
      (moveDown p).tracks[(moveDown p).current.toNat]? =
        p.tracks[p.current.toNat]?) := by
  by_cases hg : p.cursor < 0 ∨ (p.tracks.length : Int) - 1 ≤ p.cursor
  · have hid : moveDown p = p := by unfold moveDown; rw [if_pos hg]
    rw [hid]
    exact ⟨hcur, fun h0 => ⟨h0, rfl⟩⟩
  obtain ⟨htr, hcu⟩ := moveDown_fields p hg
  push_neg at hg
  obtain ⟨hc1, hclen⟩ := hg
  have hnlt : p.cursor.toNat + 1 < p.tracks.length := by omega
  have hlen' : (moveDown p).tracks.length = p.tracks.length := by
    rw [htr, listSwap_length]
  rcases hcur with hm1 | ⟨hge, hlt⟩
  · rw [hm1, if_neg (by omega), if_neg (by omega)] at hcu
    refine ⟨Or.inl (by rw [hcu]), fun h0 => ?_⟩
    exfalso
    omega
  · by_cases he1 : p.current = p.cursor
    · rw [if_pos he1] at hcu
      refine ⟨Or.inr ⟨by omega, by rw [hcu]; omega⟩, fun _ => ⟨by omega, ?_⟩⟩
      rw [htr, hcu]
      have : (p.current + 1).toNat = p.cursor.toNat + 1 := by omega
      rw [this, listSwap_get_snd p.tracks _ _ (by omega) hnlt]
      congr 1
      omega
    · by_cases he2 : p.current = p.cursor + 1
      · rw [if_neg he1, if_pos he2] at hcu
        refine ⟨Or.inr ⟨by omega, by rw [hcu]; omega⟩, fun _ => ⟨by omega, ?_⟩⟩
        rw [htr, hcu]
        have : (p.current - 1).toNat = p.cursor.toNat := by omega
        rw [this, listSwap_get_fst p.tracks _ _ (by omega) hnlt]
        congr 1
        omega
      · rw [if_neg he1, if_neg he2] at hcu
        refine ⟨Or.inr ⟨by omega, by rw [hcu]; omega⟩, fun _ => ⟨by omega, ?_⟩⟩
        rw [htr, hcu]
        exact listSwap_get_other p.tracks _ _ _ (by omega) (by omega)

theorem addTrack_spec (p : Playlist) (t : Track) (hcur : curOK p) :
    curOK (addTrack p t) ∧
    (0 ≤ p.current →
      0 ≤ (addTrack p t).current ∧
      (addTrack p t).tracks[(addTrack p t).current.toNat]? =
        p.tracks[p.current.toNat]?) := by
  have htr : (addTrack p t).tracks = p.tracks ++ [t] := by
    unfold addTrack; simp
  have hcu : (addTrack p t).current = p.current := by
    unfold addTrack; simp
  constructor
  · rcases hcur with hm1 | ⟨hge, hlt⟩
    · exact Or.inl (by rw [hcu, hm1])
    · refine Or.inr ⟨by omega, ?_⟩
      rw [hcu, htr, List.length_append]
      push_cast
      omega
  · intro h0
    rcases hcur with hm1 | ⟨hge, hlt⟩
    · exfalso; omega
    · refine ⟨by omega, ?_⟩
      rw [htr, hcu, List.getElem?_append_left (by omega)]

theorem addTracks_spec (p : Playlist) (ts : List Track) (hcur : curOK p) :
    curOK (addTracks p ts) ∧
    (0 ≤ p.current →
      0 ≤ (addTracks p ts).current ∧
      (addTracks p ts).tracks[(addTracks p ts).current.toNat]? =
        p.tracks[p.current.toNat]?) := by
  have htr : (addTracks p ts).tracks = p.tracks ++ ts := by
    unfold addTracks; simp
  have hcu : (addTracks p ts).current = p.current := by
    unfold addTracks; simp
  constructor
  · rcases hcur with hm1 | ⟨hge, hlt⟩
    · exact Or.inl (by rw [hcu, hm1])
    · refine Or.inr ⟨by omega, ?_⟩
      rw [hcu, htr, List.length_append]
      push_cast
      omega
  · intro h0
    rcases hcur with hm1 | ⟨hge, hlt⟩
    · exfalso; omega
    · refine ⟨by omega, ?_⟩
      rw [htr, hcu, List.getElem?_append_left (by omega)]

theorem applyOp_preserves (p : Playlist) (op : PlOp) (h : curOK p) :
    curOK (applyOp p op) := by
  cases op with
  | add t => exact (addTrack_spec p t h).1
  | addMany ts => exact (addTracks_spec p ts h).1
  | removeSel => exact (removeSelected_spec p h).1
  | moveUpOp => exact (moveUp_spec p h).1
  | moveDownOp => exact (moveDown_spec p h).1

theorem applyOps_preserve (ops : List PlOp) :
    ∀ p : Playlist, curOK p → curOK (ops.foldl applyOp p) := by
  induction ops with
  | nil => exact fun p h => h
  | cons op ops ih => exact fun p h => ih _ (applyOp_preserves p op h)

/-- C5: along any sequence of Add/AddTracks/RemoveSelected/MoveUp/MoveDown
operations, `currentIndex` stays -1 or a valid index; and each single
operation keeps `currentIndex` on the very same track it pointed at,
except when `RemoveSelected` removed exactly that track, in which case
`currentIndex` becomes -1. -/
theorem playlist_current_invariant (p : Playlist) (h : curOK p) :
    (∀ ops : List PlOp, curOK (ops.foldl applyOp p)) ∧
    (∀ op : PlOp, 0 ≤ p.current →
      ((applyOp p op).current = -1 ∧ op = .removeSel ∧ p.cursor = p.current) ∨
      (0 ≤ (applyOp p op).current ∧
        (applyOp p op).tracks[(applyOp p op).current.toNat]? =
          p.tracks[p.current.toNat]?)) := by
  refine ⟨fun ops => applyOps_preserve ops p h, fun op h0 => ?_⟩
  cases op with
  | add t => exact Or.inr ((addTrack_spec p t h).2 h0)
  | addMany ts => exact Or.inr ((addTracks_spec p ts h).2 h0)
  | removeSel =>
    rcases (removeSelected_spec p h).2 h0 with ⟨ha, hb⟩ | hr
    · exact Or.inl ⟨ha, rfl, hb⟩
    · exact Or.inr hr
  | moveUpOp => exact Or.inr ((moveUp_spec p h).2 h0)
  | moveDownOp => exact Or.inr ((moveDown_spec p h).2 h0)

/-- C5 witness: on a concrete playlist, a concrete operation sequence
keeps the invariant, and a single MoveUp keeps `currentIndex` on the
same track. -/
theorem playlist_current_invariant_witness :
    curOK ([PlOp.add trC, PlOp.removeSel].foldl applyOp pl3AllW) ∧
    (0 ≤ (applyOp pl3AllW PlOp.moveUpOp).current ∧
      (applyOp pl3AllW PlOp.moveUpOp).tracks[(applyOp pl3AllW
        PlOp.moveUpOp).current.toNat]? =
        pl3AllW.tracks[pl3AllW.current.toNat]?) :=
  ⟨(playlist_current_invariant pl3AllW (by decide)).1 _,
   ((playlist_current_invariant pl3AllW (by decide)).2 PlOp.moveUpOp
     (by decide)).resolve_left (by decide)⟩

/-!
## Shuffle and the slice-aliasing slip (C4)
-/

/-- A two-track playlist currently playing track 0 (trA). -/
def pl2CE : Playlist := ⟨[trA, trB], 0, 0, .lnone⟩

/-- A random draw sequence whose every `rand.Intn(i+1)` draw is 0;
at `i = 1` this swaps positions 1 and 0. -/
def rand0 : Nat → Nat := fun _ => 0

/-- C4 evaluation: shuffling `[trA, trB]` (current = 0) with the draw
that swaps the two tracks yields tracks `[trB, trA]`, so the previously
current track trA now sits at index 1 -- yet `current` remains 0 (now
denoting trB).  The source's `currentTrack = &p.tracks[p.current]` is a
pointer into the slice being permuted, so the relocation scan looks up
the path of whichever track LANDED in the old slot, not the track that
was playing; with unique paths that scan always returns the old index
unchanged. -/
theorem shuffle_alias_divergence :
    pl2CE.current = 0 ∧
    pl2CE.tracks[0]? = some trA ∧
    (shuffle pl2CE rand0).tracks = [trB, trA] ∧
    (shuffle pl2CE rand0).tracks[1]? = some trA ∧
    (shuffle pl2CE rand0).current = 0 ∧
    (shuffle pl2CE rand0).current ≠ 1 := by decide

/-!
## The update loop and the pending-transition controller (C1-C3)

Embedding of the `Update` cases of the current update.go revision
(src/unnamed/part_001, first document) that the claims depend on:
PlayerTickMsg, TrackEndedMsg, PlayPauseMsg, NextTrackMsg, PrevTrackMsg,
PlaySelectedMsg and playTrackResult, together with the controller
helpers `startPlayingTrack` / `confirmTrackStarted` /
`cancelPendingTrack` / `stopPlayback`.  The remaining cases (window
sizing, browser and metadata plumbing, error-banner timing, stop/seek/
volume) do not participate in the claims and are omitted.  The engine
calls `audioPlayer.Stop()` / `Pause()` / `Play()` are external effects;
only `Play()`'s error result feeds back into the model and is supplied
through `Env`. -/

/-- `player.PlayState` (part_007): the engine-side playback state. -/
inductive EnginePlayState where
  | stopped
  | playing
  | paused
  | fading
  deriving Repr, DecidableEq

/-- `player.PlaybackInfo` (part_007) as read by the update loop; the
`HasLoop`, `Volume` and `Speed` fields are never read by `Update` and
are omitted. -/
structure EnginePlaybackInfo where
  state : EnginePlayState
  position : Int
  duration : Int
  currentLoop : Int
  totalLoops : Int
  deriving Repr, DecidableEq

/-- The ui-side `PlayState` of the model.go revision matching
src/unnamed/part_001, which handles a `StateFading` value (the revision
declaring it is not among the source files; the constructor set is fixed
by its uses in part_001 and spec 4.3). -/
inductive UiPlayState where
  | stopped
  | playing
  | paused
  | fading
  deriving Repr, DecidableEq

/-- The ui-side `PlaybackInfo`. -/
structure UiPlaybackInfo where
  state : UiPlayState
  position : Int
  duration : Int
  currentLoop : Int
  totalLoops : Int
  deriving Repr, DecidableEq

/-- `player.ChipInfo` (part_007). -/
structure ChipInfo where
  name : String
  core : String
  deriving Repr, DecidableEq

/-- The `Model` fields read or written by the embedded `Update` cases.
The model.go revision declaring `pendingPlayIndex`/`pendingTrack` is not
among the source files; these two fields and `trackLoading` are fixed by
their uses in part_001 (and spec 3, "Pending playback transition").
`hasAudioPlayer` models `audioPlayer != nil` and `hasPlayerSub` models
`playerSub != nil`.  Window/focus/browser/style state is untouched by
the embedded cases and omitted. -/
structure Model where
  playlist : Playlist
  currentTrack : Option Track
  playback : UiPlaybackInfo
  trackLoading : Bool
  pendingPlayIndex : Int
  pendingTrack : Option Track
  hasAudioPlayer : Bool
  hasPlayerSub : Bool
  trackChips : List ChipInfo
  lastError : String
  errorTime : Int
  deriving Repr, DecidableEq

/-- The Bubbletea commands returned by the embedded handlers:
`emitTrackEnded` is the closure returning `TrackEndedMsg`,
`listenPlayback` is `listenForPlayback(m.playerSub)`, `playTrackCmd p`
is `playTrack(m.audioPlayer, p)` (the start-transition call), and
`tickClearError` is the deferred 5-second `ClearErrorMsg` tick. -/
inductive Cmd where
  | emitTrackEnded
  | listenPlayback
  | playTrackCmd (path : String)
  | tickClearError
  | batch (cs : List Cmd)

/-- `tea.Batch`: `nil` for no commands, the command itself for exactly
one, a batch otherwise (no nil entries arise in the embedded handlers). -/
def teaBatch : List Cmd → Option Cmd
  | [] => none
  | [c] => some c
  | cs => some (Cmd.batch cs)

/-- The messages the claims exercise. -/
inductive Msg where
  | playerTick (info : EnginePlaybackInfo)
  | trackEnded
  | playPause
  | nextTrackMsg
  | prevTrackMsg
  | playSelected
  | playResult (err : Option String) (chips : List ChipInfo)

/-- Ambient effects read during one update step: the engine state
polled by `togglePlayPause` via `audioPlayer.State()`, whether
`audioPlayer.Play()` succeeds when resuming from pause, and
`time.Now()`. -/
structure Env where
  engineState : EnginePlayState
  playOk : Bool
  now : Int

/-- `startPlayingTrack` (part_001): look the track up; on success stash
`(pendingPlayIndex, pendingTrack)`, raise `trackLoading` and return the
asynchronous load-and-play command; otherwise change nothing and return
no command. -/
def startPlayingTrack (m : Model) (playlistIndex : Int) : Model × Option Cmd :=
  if m.hasAudioPlayer = false then (m, none)
  else
    match m.playlist.getTrack playlistIndex with
    | none => (m, none)
    | some track =>
      ({ m with
          pendingPlayIndex := playlistIndex
          pendingTrack := some track
          trackLoading := true },
       some (Cmd.playTrackCmd track.path))

/-- `confirmTrackStarted` (part_001): commit the pending slot into
`currentIndex`/`currentTrack`, then clear the slot and the flag. -/
def confirmTrackStarted (m : Model) : Model :=
  let m1 :=
    if 0 ≤ m.pendingPlayIndex ∧ m.pendingTrack ≠ none then
      { m with
          playlist := m.playlist.setCurrentTrack m.pendingPlayIndex
          currentTrack := m.pendingTrack }
    else m
  { m1 with
      trackLoading := false
      pendingPlayIndex := -1
      pendingTrack := none }

/-- `cancelPendingTrack` (part_001): discard the pending slot and clear
the flag; committed state is untouched. -/
def cancelPendingTrack (m : Model) : Model :=
  { m with
      trackLoading := false
      pendingPlayIndex := -1
      pendingTrack := none }

/-- `stopPlayback` (part_001): stop the engine (external), clear the
playlist's current pointer and the displayed track, and reset the
visible playback state. -/
def stopPlayback (m : Model) : Model :=
  { m with
      playlist := m.playlist.clearCurrent
      currentTrack := none
      playback := { m.playback with
        state := .stopped
        position := 0
        currentLoop := 0 } }

/-- `togglePlayPause` (part_001).  With a player: rejected while
loading; otherwise dispatch on the engine's live state (stopped resumes
the current index or starts at 0 through the controller; the engine's
fading state has no case and falls through unchanged).  Without a
player (mock mode): toggle on the ui state directly -- note there is no
loading check on this path. -/
def togglePlayPause (m : Model) (env : Env) : Model × Option Cmd :=
  if m.hasAudioPlayer then
    if m.trackLoading then (m, none)
    else
      match env.engineState with
      | .stopped =>
        if 0 ≤ m.playlist.currentIndex then
          startPlayingTrack m m.playlist.currentIndex
        else
          startPlayingTrack m 0
      | .playing =>
        ({ m with playback := { m.playback with state := .paused } }, none)
      | .paused =>
        if env.playOk then
          ({ m with playback := { m.playback with state := .playing } }, none)
        else (m, none)
      | .fading => (m, none)
  else
    match m.playback.state with
    | .stopped =>
      ({ m with playback := { m.playback with
          state := .playing
          position := 0 } }, none)
    | .playing =>
      ({ m with playback := { m.playback with state := .paused } }, none)
    | .paused =>
      ({ m with playback := { m.playback with state := .playing } }, none)
    | .fading => (m, none)

/-- The embedded `Update` (part_001). -/
def update (m : Model) (msg : Msg) (env : Env) : Model × Option Cmd :=
  match msg with
  | .playerTick info =>
    let m1 := { m with playback := { m.playback with
      position := info.position
      duration := info.duration
      currentLoop := info.currentLoop
      totalLoops := info.totalLoops } }
    let trailing : List Cmd :=
      if m.hasPlayerSub then [Cmd.listenPlayback] else []
    match info.state with
    | .playing =>
      ({ m1 with playback := { m1.playback with state := .playing } },
       teaBatch trailing)
    | .paused =>
      ({ m1 with playback := { m1.playback with state := .paused } },
       teaBatch trailing)
    | .stopped =>
      if m1.trackLoading = false then
        let m2 := { m1 with playback := { m1.playback with state := .stopped } }
        if m.playback.state = .playing ∨ m.playback.state = .fading then
          (m2, teaBatch (Cmd.emitTrackEnded :: trailing))
        else (m2, teaBatch trailing)
      else (m1, teaBatch trailing)
    | .fading =>
      ({ m1 with playback := { m1.playback with state := .fading } },
       teaBatch trailing)
  | .trackEnded =>
    if m.hasAudioPlayer = true ∧ m.trackLoading = false then
      if 0 ≤ m.playlist.peekNextTrack then
        match startPlayingTrack m m.playlist.peekNextTrack with
        | (m', some c) => (m', some c)
        | (m', none) => (stopPlayback m', none)
      else (stopPlayback m, none)
    else (m, none)
  | .playPause => togglePlayPause m env
  | .nextTrackMsg =>
    if m.trackLoading then (m, none)
    else if m.hasAudioPlayer then
      if 0 ≤ m.playlist.peekNextTrack then
        match startPlayingTrack m m.playlist.peekNextTrack with
        | (m', some c) => (m', some c)
        | (m', none) =>
          ({ m' with playback := { m'.playback with
              position := 0
              currentLoop := 0 } }, none)
      else
        ({ m with playback := { m.playback with
            position := 0
            currentLoop := 0 } }, none)
    else (m, none)
  | .prevTrackMsg =>
    if m.trackLoading then (m, none)
    else if m.hasAudioPlayer then
      if 0 ≤ m.playlist.peekPrevTrack then
        match startPlayingTrack m m.playlist.peekPrevTrack with
        | (m', some c) => (m', some c)
        | (m', none) =>
          ({ m' with playback := { m'.playback with
              position := 0
              currentLoop := 0 } }, none)
      else
        ({ m with playback := { m.playback with
            position := 0
            currentLoop := 0 } }, none)
    else (m, none)
  | .playSelected =>
    if m.trackLoading then (m, none)
    else if m.hasAudioPlayer then
      startPlayingTrack m m.playlist.selectedIndex
    else
      match m.playlist.getTrack m.playlist.selectedIndex with
      | some track =>
        ({ m with
            playlist := m.playlist.setCurrentTrack m.playlist.selectedIndex
            currentTrack := some track
            playback := { m.playback with
              state := .playing
              position := 0
              duration := track.duration
              currentLoop := 0 } }, none)
      | none => (m, none)
  | .playResult err chips =>
    match err with
    | some e =>
      ({ cancelPendingTrack m with lastError := e, errorTime := env.now },
       some Cmd.tickClearError)
    | none =>
      let m1 := confirmTrackStarted m
      (if chips ≠ [] then { m1 with trackChips := chips } else m1, none)

mutual

/-- The paths of the start-transition (`playTrack`) calls inside a
command. -/
def playCalls : Cmd → List String
  | .playTrackCmd path => [path]
  | .batch cs => playCallsL cs
  | _ => []

/-- `playCalls` over a command list. -/
def playCallsL : List Cmd → List String
  | [] => []
  | c :: cs => playCalls c ++ playCallsL cs

end

mutual

/-- The number of `TrackEndedMsg` emissions inside a command. -/
def endedCalls : Cmd → Nat
  | .emitTrackEnded => 1
  | .batch cs => endedCallsL cs
  | _ => 0

/-- `endedCalls` over a command list. -/
def endedCallsL : List Cmd → Nat
  | [] => 0
  | c :: cs => endedCalls c + endedCallsL cs

end

/-- `playCalls` lifted to an optional command. -/
def playCallsOpt : Option Cmd → List String
  | none => []
  | some c => playCalls c

/-- `endedCalls` lifted to an optional command. -/
def endedCallsOpt : Option Cmd → Nat
  | none => 0
  | some c => endedCalls c

theorem startPlayingTrack_frame (m : Model) (i : Int) :
    (startPlayingTrack m i).1.playlist = m.playlist ∧
    (startPlayingTrack m i).1.currentTrack = m.currentTrack := by
  unfold startPlayingTrack
  split
  · exact ⟨rfl, rfl⟩
  · split <;> exact ⟨rfl, rfl⟩

/-- C1: when the asynchronous load/play fails (`playTrackResult` carrying
an error), the model rolls back: the pending slot and the loading flag
are cleared, and for every prior state the playlist's `currentIndex` and
the model's `currentTrack` are exactly what they were before the
`startPlayingTrack` call. -/
theorem failed_start_rolls_back (m : Model) (i : Int) (e : String)
    (chips : List ChipInfo) (env : Env) :
    (update (startPlayingTrack m i).1 (.playResult (some e) chips)
        env).1.trackLoading = false ∧
    (update (startPlayingTrack m i).1 (.playResult (some e) chips)
        env).1.pendingPlayIndex = -1 ∧
    (update (startPlayingTrack m i).1 (.playResult (some e) chips)
        env).1.pendingTrack = none ∧
    (update (startPlayingTrack m i).1 (.playResult (some e) chips)
        env).1.playlist.currentIndex = m.playlist.currentIndex ∧
    (update (startPlayingTrack m i).1 (.playResult (some e) chips)
        env).1.currentTrack = m.currentTrack := by
  obtain ⟨h1, h2⟩ := startPlayingTrack_frame m i
  refine ⟨rfl, rfl, rfl, ?_, ?_⟩
  · show (startPlayingTrack m i).1.playlist.currentIndex
      = m.playlist.currentIndex
    rw [h1]
  · show (startPlayingTrack m i).1.currentTrack = m.currentTrack
    exact h2

/-- A mock-mode model (no audio player attached) whose loading flag is
raised and whose visible playback state is Stopped. -/
def mockLoadingM : Model :=
  { playlist := plEmptyW, currentTrack := none,
    playback := ⟨.stopped, 0, 0, 0, 2⟩, trackLoading := true,
    pendingPlayIndex := -1, pendingTrack := none, hasAudioPlayer := false,
    hasPlayerSub := false, trackChips := [], lastError := "",
    errorTime := 0 }

/-- A fixed concrete environment for the concrete evaluations. -/
def envW : Env := ⟨.stopped, true, 7⟩

/-- C2 counterexample: in mock mode (`audioPlayer == nil`) with
`trackLoading = true`, the play/pause toggle is NOT a no-op -- the mock
branch of `togglePlayPause` has no loading check, so the model's playback
state flips from Stopped to Playing. -/
theorem loading_toggle_mock_ce :
    mockLoadingM.trackLoading = true ∧
    (update mockLoadingM .playPause envW).1 ≠ mockLoadingM ∧
    (update mockLoadingM .playPause envW).1.playback.state
      = .playing := by decide

/-- C2 (amended): while `trackLoading` is true, the next-track,
prev-track and play-selected messages are unconditional no-ops (model
unchanged, no command emitted), and the play/pause toggle is likewise a
no-op provided an audio player is attached; the mock-mode toggle ignores
the loading flag. -/
theorem loading_gate_blocks_transitions (m : Model) (env : Env)
    (hl : m.trackLoading = true) :
    update m .nextTrackMsg env = (m, none) ∧
    update m .prevTrackMsg env = (m, none) ∧
    update m .playSelected env = (m, none) ∧
    (m.hasAudioPlayer = true → update m .playPause env = (m, none)) := by
  refine ⟨?_, ?_, ?_, fun hp => ?_⟩ <;>
    simp_all [update, togglePlayPause]

/-- A model with an attached player and the loading flag raised. -/
def loadingPlayerM : Model := { mockLoadingM with hasAudioPlayer := true }

/-- C2 witness: with a player attached and loading in flight, both the
next-track message and the toggle leave the concrete model untouched. -/
theorem loading_gate_blocks_transitions_witness :
    update loadingPlayerM .nextTrackMsg envW = (loadingPlayerM, none) ∧
    update loadingPlayerM .playPause envW = (loadingPlayerM, none) :=
  ⟨(loading_gate_blocks_transitions loadingPlayerM envW rfl).1,
   (loading_gate_blocks_transitions loadingPlayerM envW rfl).2.2.2 rfl⟩

theorem peekNextTrack_range (p : Playlist) :
    peekNextTrack p = -1 ∨
    (0 ≤ peekNextTrack p ∧ peekNextTrack p < (p.tracks.length : Int)) := by
  unfold peekNextTrack
  split_ifs <;>
    first
      | exact Or.inl rfl
      | (right; constructor <;> omega)

theorem getTrack_of_valid (p : Playlist) (i : Int) (h0 : 0 ≤ i)
    (hl : i < (p.tracks.length : Int)) : ∃ t, p.getTrack i = some t := by
  unfold getTrack
  rw [if_neg (by omega)]
  have hlt : i.toNat < p.tracks.length := by omega
  exact ⟨p.tracks[i.toNat], List.getElem?_eq_getElem hlt⟩

theorem startPlayingTrack_success (m : Model) (i : Int) (t : Track)
    (hp : m.hasAudioPlayer = true) (ht : m.playlist.getTrack i = some t) :
    startPlayingTrack m i =
      ({ m with pendingPlayIndex := i, pendingTrack := some t,
                trackLoading := true },
       some (Cmd.playTrackCmd t.path)) := by
  unfold startPlayingTrack
  rw [hp, ht]
  simp

theorem trackEnded_advances (m : Model) (env : Env) (t : Track)
    (hp : m.hasAudioPlayer = true) (hl : m.trackLoading = false)
    (hpk : 0 ≤ m.playlist.peekNextTrack)
    (ht : m.playlist.getTrack m.playlist.peekNextTrack = some t) :
    update m .trackEnded env =
      ({ m with pendingPlayIndex := m.playlist.peekNextTrack,
                pendingTrack := some t, trackLoading := true },
       some (Cmd.playTrackCmd t.path)) := by
  simp only [update]
  rw [if_pos ⟨hp, hl⟩, if_pos hpk, startPlayingTrack_success m _ t hp ht]

theorem tick_stopped_advances (m : Model) (info : EnginePlaybackInfo)
    (env : Env)
    (hwas : m.playback.state = .playing ∨ m.playback.state = .fading)
    (hinfo : info.state = .stopped) (hl : m.trackLoading = false) :
    update m (.playerTick info) env =
      ({ m with playback := ⟨.stopped, info.position, info.duration,
          info.currentLoop, info.totalLoops⟩ },
       teaBatch (Cmd.emitTrackEnded ::
         (if m.hasPlayerSub then [Cmd.listenPlayback] else []))) := by
  obtain ⟨st, pos, dur, cl, tl⟩ := info
  simp only at hinfo
  subst hinfo
  simp only [update, hl]
  rw [if_true, if_pos hwas]

theorem tick_stopped_suppressed (m : Model) (info : EnginePlaybackInfo)
    (env : Env) (hinfo : info.state = .stopped)
    (hl : m.trackLoading = true) :
    update m (.playerTick info) env =
      ({ m with playback := ⟨m.playback.state, info.position, info.duration,
          info.currentLoop, info.totalLoops⟩ },
       teaBatch (if m.hasPlayerSub then [Cmd.listenPlayback] else [])) := by
  obtain ⟨st, pos, dur, cl, tl⟩ := info
  simp only at hinfo
  subst hinfo
  simp only [update, hl]
  rw [if_neg (by simp)]

theorem endedCallsOpt_emit_batch (cs : List Cmd)
    (h : endedCallsL cs = 0) :
    endedCallsOpt (teaBatch (Cmd.emitTrackEnded :: cs)) = 1 := by
  cases cs with
  | nil => rfl
  | cons c cs' =>
    simp only [endedCallsL] at h
    simp only [teaBatch, endedCallsOpt, endedCalls, endedCallsL]
    omega

/-- C3: from a state whose visible playback state was Playing or Fading,
a Stopped engine snapshot behaves as follows.  (A) If `trackLoading` is
false (and a player is attached, the precondition for any snapshot to
arrive at all) and a next track exists (`PeekNextTrack >= 0`): the
snapshot emits exactly one TrackEndedMsg and zero start-transition
calls, flips the visible state to Stopped and leaves the playlist alone;
processing that TrackEndedMsg then issues exactly one start-transition
call, whose path is the track at the peeked index, and still leaves
`currentIndex` untouched (only the success handler commits it).  (B) If
`trackLoading` is true, the Stopped transition is suppressed: the
visible state keeps its previous value, no TrackEndedMsg and no start
call are emitted, and the playlist is untouched. -/
theorem stopped_snapshot_auto_advance (m : Model)
    (info : EnginePlaybackInfo) (env env' : Env)
    (hwas : m.playback.state = .playing ∨ m.playback.state = .fading)
    (hinfo : info.state = .stopped) :
    (m.trackLoading = false → m.hasAudioPlayer = true →
      0 ≤ m.playlist.peekNextTrack →
      endedCallsOpt (update m (.playerTick info) env).2 = 1 ∧
      playCallsOpt (update m (.playerTick info) env).2 = [] ∧
      (update m (.playerTick info) env).1.playback.state = .stopped ∧
      (update m (.playerTick info) env).1.playlist = m.playlist ∧
      (∃ t, m.playlist.getTrack m.playlist.peekNextTrack = some t ∧
        playCallsOpt
          (update (update m (.playerTick info) env).1 .trackEnded env').2
          = [t.path]) ∧
      (update (update m (.playerTick info) env).1
          .trackEnded env').1.playlist.currentIndex
        = m.playlist.currentIndex) ∧
    (m.trackLoading = true →
      (update m (.playerTick info) env).1.playback.state
        = m.playback.state ∧
      endedCallsOpt (update m (.playerTick info) env).2 = 0 ∧
      playCallsOpt (update m (.playerTick info) env).2 = [] ∧
      (update m (.playerTick info) env).1.playlist = m.playlist) := by
  constructor
  · intro hl hp hpk
    rw [tick_stopped_advances m info env hwas hinfo hl]
    have hvalid : m.playlist.peekNextTrack < (m.playlist.tracks.length : Int) := by
      rcases peekNextTrack_range m.playlist with h | ⟨_, h⟩ <;> omega
    obtain ⟨t, ht⟩ := getTrack_of_valid m.playlist _ hpk hvalid
    have hadv := trackEnded_advances
      ({ m with playback := ⟨.stopped, info.position, info.duration,
          info.currentLoop, info.totalLoops⟩ }) env' t hp hl hpk ht
    refine ⟨?_, ?_, rfl, rfl, ⟨t, ht, ?_⟩, ?_⟩
    · exact endedCallsOpt_emit_batch _ (by cases hs : m.hasPlayerSub <;> simp [endedCallsL, endedCalls])
    · cases hs : m.hasPlayerSub <;>
        simp [teaBatch, playCallsOpt, playCalls, playCallsL]
    · rw [hadv]
      rfl
    · rw [hadv]
  · intro hl
    rw [tick_stopped_suppressed m info env hinfo hl]
    refine ⟨rfl, ?_, ?_, rfl⟩
    · cases hs : m.hasPlayerSub <;>
        simp [teaBatch, endedCallsOpt, endedCalls, endedCallsL]
    · cases hs : m.hasPlayerSub <;>
        simp [teaBatch, playCallsOpt, playCalls, playCallsL]

/-- A model mid-playback (Playing, not loading) with a player, a
subscription and pl3AllW as queue. -/
def mC3A : Model :=
  { playlist := pl3AllW, currentTrack := some trA,
    playback := ⟨.playing, 1, 10, 0, 2⟩, trackLoading := false,
    pendingPlayIndex := -1, pendingTrack := none, hasAudioPlayer := true,
    hasPlayerSub := true, trackChips := [], lastError := "",
    errorTime := 0 }

/-- The same model during a pending-load window. -/
def mC3B : Model := { mC3A with trackLoading := true }

/-- A concrete Stopped engine snapshot. -/
def infoStopW : EnginePlaybackInfo := ⟨.stopped, 0, 10, 0, 2⟩

/-- C3 witness: on the concrete mid-playback model the Stopped snapshot
emits exactly one TrackEndedMsg, and on the loading variant the visible
state survives the snapshot. -/
theorem stopped_snapshot_auto_advance_witness :
    endedCallsOpt (update mC3A (.playerTick infoStopW) envW).2 = 1 ∧
    (update mC3B (.playerTick infoStopW) envW).1.playback.state
      = mC3B.playback.state :=
  ⟨((stopped_snapshot_auto_advance mC3A infoStopW envW envW
      (by decide) (by decide)).1 (by decide) (by decide) (by decide)).1,
   ((stopped_snapshot_auto_advance mC3B infoStopW envW envW
      (by decide) (by decide)).2 (by decide)).1⟩

end Vgmtui
